import Mathlib

/-!
Verification of `pyresample/utils.py` (pyresample, 2010): area-file parsing
and linesample index-mapping.  Strings are modelled as lists of characters
(`Str`); file contents are the list of lines returned by `readlines` (each
line keeps its trailing newline, which is irrelevant to every property
below).  External collaborators (the projection engine, the spatial
neighbour query, `geometry.AreaDefinition`, the `configobj` library) are
modelled at their interfaces.
-/

set_option autoImplicit false

abbrev Str := List Char

/-- Python `pat in line` (substring containment). -/
def containsSub (line pat : Str) : Bool :=
  line.tails.any (fun t => pat.isPrefixOf t)

/-- Auxiliary fuel-indexed loop for `replaceAll`; the fuel is an upper bound
on the number of characters consumed, so `fuel = s.length` is always enough. -/
def replaceAllAux (pat : Str) : Nat → Str → Str
  | 0, s => s
  | _ + 1, [] => []
  | fuel + 1, c :: rest =>
    if pat ≠ [] ∧ pat.isPrefixOf (c :: rest) then
      replaceAllAux pat fuel (rest.drop (pat.length - 1))
    else
      c :: replaceAllAux pat fuel rest

/-- Python `s.replace(pat, '')`: remove every (leftmost, non-overlapping)
occurrence of `pat` from `s`. -/
def replaceAll (pat s : Str) : Str :=
  replaceAllAux pat s.length s

/-- Python `s.strip()`: drop whitespace from both ends. -/
def trimWS (s : Str) : Str :=
  ((s.dropWhile Char.isWhitespace).reverse.dropWhile Char.isWhitespace).reverse

/-- The token `REGION` searched for by the scanner. -/
def regionTok : Str := ['R', 'E', 'G', 'I', 'O', 'N']

/-- The token `REGION:` removed when extracting a block id. -/
def regionColon : Str := ['R', 'E', 'G', 'I', 'O', 'N', ':']

/-- The token `{` removed when extracting a block id. -/
def openBrace : Str := ['{']

/-- The block terminator token `};`. -/
def closeBrace : Str := ['}', ';']

/-- Python `line.replace('REGION:', '').replace('{', '').strip()`: the block id
extracted from a line that contains `REGION`. -/
def extractId (line : Str) : Str :=
  trimWS (replaceAll openBrace (replaceAll regionColon line))

/-- Python `list.index`: index of the first occurrence of `x` (the callers in
`parse_area_file` only use it when `x` is present). -/
def listIndex (x : Str) : List Str → Nat
  | [] => 0
  | y :: ys => if y = x then 0 else listIndex x ys + 1

/-- Errors surfaced by `parse_area_file`: a requested area missing from the
file, or an error `E` propagated from `_create_area`. -/
inductive ParseError (E : Type) where
  | areaNotFound (area : Str) (path : Str)
  | createError (e : E)
deriving DecidableEq

/-- The mutable state of the line loop in `parse_area_file`: the `in_area`
flag, the current block id and accumulated content, and the `area_defs`
list (slots hold `none` until assigned; in select-all mode only `some`
values are ever appended). -/
structure ScanState (A : Type) where
  in_area : Bool
  area_id : Str
  area_content : Str
  area_defs : List (Option A)
deriving DecidableEq

/-- One iteration of the `for line in area_file.readlines()` loop of
`parse_area_file`.  `names` is `area_list` (empty means `select_all_areas`)
and `create` is `_create_area`, whose failure aborts the loop. -/
def processLine {E A : Type} (names : List Str) (create : Str → Str → Except E A)
    (s : ScanState A) (line : Str) : Except E (ScanState A) :=
  if s.in_area = false then
    if containsSub line regionTok then
      if extractId line ∈ names ∨ names.isEmpty then
        .ok ⟨true, extractId line, [], s.area_defs⟩
      else
        .ok ⟨false, extractId line, s.area_content, s.area_defs⟩
    else
      .ok s
  else if containsSub line closeBrace then
    match create s.area_id s.area_content with
    | .error e => .error e
    | .ok v =>
      if names.isEmpty then
        .ok ⟨false, s.area_id, s.area_content, s.area_defs ++ [some v]⟩
      else
        .ok ⟨false, s.area_id, s.area_content,
             s.area_defs.set (listIndex s.area_id names) (some v)⟩
  else
    .ok ⟨true, s.area_id, s.area_content ++ line, s.area_defs⟩

/-- The whole line loop of `parse_area_file`. -/
def scanLoop {E A : Type} (names : List Str) (create : Str → Str → Except E A) :
    List Str → ScanState A → Except E (ScanState A)
  | [], s => .ok s
  | l :: ls, s =>
    match processLine names create s l with
    | .error e => .error e
    | .ok s' => scanLoop names create ls s'

/-- The state at the top of the loop: `area_defs = [None for i in area_list]`
in select mode, `[]` in select-all mode. -/
def initState {A : Type} (names : List Str) : ScanState A :=
  ⟨false, [], [], if names.isEmpty then [] else names.map (fun _ => none)⟩

/-- The `if area is None: raise AreaNotFound(...)` check over the zipped
(requested name, slot) pairs, returning the slot values when none is empty. -/
def checkFound {E A : Type} (path : Str) :
    List (Str × Option A) → Except (ParseError E) (List A)
  | [] => .ok []
  | (n, none) :: _ => .error (.areaNotFound n path)
  | (_, some a) :: rest =>
    match checkFound (E := E) path rest with
    | .error e => .error e
    | .ok res => .ok (a :: res)

/-- The function `parse_area_file`, with the builder `_create_area` abstracted as `create`
(its body delegates to the external `configobj` library).  The second
component records whether `area_file.close()` was executed on the taken
path: the call at line 78 runs only if the line loop finishes without an
exception, and the `AreaNotFound` check runs after it. -/
def parse_area_file_run {E A : Type} (path : Str) (lines : List Str)
    (names : List Str) (create : Str → Str → Except E A) :
    Except (ParseError E) (List A) × Bool :=
  match scanLoop names create lines (initState names) with
  | .error e => (.error (.createError e), false)
  | .ok s =>
    if names.isEmpty then
      (.ok s.area_defs.reduceOption, true)
    else
      match checkFound path (names.zip s.area_defs) with
      | .error err => (.error err, true)
      | .ok res => (.ok res, true)

/-- The value returned (or the error raised) by `parse_area_file`. -/
def parse_area_file {E A : Type} (path : Str) (lines : List Str)
    (names : List Str) (create : Str → Str → Except E A) :
    Except (ParseError E) (List A) :=
  (parse_area_file_run path lines names create).1

/-- A builder that records the raw block handed to `_create_area`: it returns
the (id, content) pair and never fails. -/
def mkRawBlock : Str → Str → Except Unit (Str × Str) :=
  fun i c => .ok (i, c)

/-- A builder that always raises, standing for a `_create_area` failure
(missing key or conversion error) on any block. -/
def failBlock : Str → Str → Except Unit (Str × Str) :=
  fun _ _ => .error ()

/-- Numpy boolean-mask indexing `xs[mask]` (callers separately require the
mask to have the same length as the array, as numpy does). -/
def maskSelect (xs : List Int) (mask : List Bool) : List Int :=
  ((xs.zip mask).filter (fun p => p.2)).map (fun p => p.1)

/-- Numpy `np.fromfunction(lambda i, j: i, shape).ravel()`: the row coordinate of
every flattened position of a `(rows, cols)` grid, in row-major order. -/
def rowsOf (shape : Nat × Nat) : List Int :=
  (List.range (shape.1 * shape.2)).map (fun k => Int.ofNat (k / shape.2))

/-- Numpy `np.fromfunction(lambda i, j: j, shape).ravel()`: the column coordinate
of every flattened position of a `(rows, cols)` grid, in row-major order. -/
def colsOf (shape : Nat × Nat) : List Int :=
  (List.range (shape.1 * shape.2)).map (fun k => Int.ofNat (k % shape.2))

/-- Numpy fancy indexing `xs[idx]` for an integer index array: `none` models
the `IndexError` raised when some index is out of bounds. -/
def lookupAll (xs : List Int) : List Nat → Option (List Int)
  | [] => some []
  | e :: es =>
    match xs[e]?, lookupAll xs es with
    | some v, some vs => some (v :: vs)
    | _, _ => none

/-- Python `valid_index.sum()` for a boolean mask: the number of valid source
pixels, which is also the no-match sentinel value in `index_array`. -/
def nvpOf (valid_index : List Bool) : Nat :=
  valid_index.count true

/-- The `rows_valid` array of `generate_nearest_neighbour_linesample_arrays`. -/
def rowsValidOf (src_shape : Nat × Nat) (valid_index : List Bool) : List Int :=
  maskSelect (rowsOf src_shape) valid_index

/-- The `cols_valid` array of `generate_nearest_neighbour_linesample_arrays`. -/
def colsValidOf (src_shape : Nat × Nat) (valid_index : List Bool) : List Int :=
  maskSelect (colsOf src_shape) valid_index

/-- The array `index_array` after `index_array[index_mask] = 0`: every sentinel entry
(equal to the number of valid points) is replaced by index 0 before the
array lookup. -/
def maskedIdx (valid_index : List Bool) (index_array : List Nat) : List Nat :=
  index_array.map (fun e => if e = nvpOf valid_index then 0 else e)

/-- The function `generate_nearest_neighbour_linesample_arrays` after the external
`swath.get_neighbour_info` call, which supplies `valid_index` (mask over the
flattened source pixels) and `index_array` (per flattened target pixel, an
index into the valid subset or the sentinel `valid_index.sum()`).  The
result is the pair (row_indices, col_indices) flattened in row-major order;
`none` models the numpy exceptions (mask length mismatch, fancy-index out
of bounds, reshape size mismatch). -/
def generate_nearest_neighbour_linesample_arrays (src_shape target_shape : Nat × Nat)
    (valid_index : List Bool) (index_array : List Nat) : Option (List Int × List Int) :=
  if valid_index.length = src_shape.1 * src_shape.2 then
    match lookupAll (rowsValidOf src_shape valid_index) (maskedIdx valid_index index_array),
        lookupAll (colsValidOf src_shape valid_index) (maskedIdx valid_index index_array) with
    | some row_sample, some col_sample =>
      if index_array.length = target_shape.1 * target_shape.2 then
        some (List.zipWith (fun e v => if e = nvpOf valid_index then (-1 : Int) else v)
                index_array row_sample,
              List.zipWith (fun e v => if e = nvpOf valid_index then (-1 : Int) else v)
                index_array col_sample)
      else
        none
    | _, _ => none
  else
    none

/-- Truncation toward zero, the semantics of the `.astype('int')` cast used
by `generate_quick_linesample_arrays` (floor for nonnegative values, ceiling
for negative ones). -/
def truncQ (q : ℚ) : ℤ :=
  if 0 ≤ q then ⌊q⌋ else -⌊-q⌋

/-- The geometry fields of an external `AreaDefinition` consumed by
`generate_quick_linesample_arrays`, with planar coordinates as exact
rationals. -/
structure AreaDefinitionGeom where
  pixel_size_x : ℚ
  pixel_size_y : ℚ
  pixel_offset_x : ℚ
  pixel_offset_y : ℚ

/-- The function `generate_quick_linesample_arrays` after the external projection step:
`source_x`/`source_y` are the planar coordinates of the target pixels in the
source area's projection.  Returns `(source_pixel_y, source_pixel_x)`, i.e.
(row_indices, col_indices). -/
def generate_quick_linesample_arrays (src : AreaDefinitionGeom)
    (source_x source_y : List ℚ) : List ℤ × List ℤ :=
  (source_y.map (fun y => truncQ (src.pixel_offset_y - y / src.pixel_size_y)),
   source_x.map (fun x => truncQ (x / src.pixel_size_x + src.pixel_offset_x)))

/-- Split a token at its first `=`: `some (key, value)` or `none` when the
token contains no `=`. -/
def splitFirstEq (t : Str) : Option (Str × Str) :=
  match t.dropWhile (fun c => c ≠ '=') with
  | [] => none
  | _ :: v => some (t.takeWhile (fun c => c ≠ '='), v)

/-- Insert into an insertion-ordered mapping: a later duplicate key
overwrites the earlier value in place. -/
def insertKV (m : List (Str × Str)) (k v : Str) : List (Str × Str) :=
  match m with
  | [] => [(k, v)]
  | (k', v') :: rest => if k' = k then (k', v) :: rest else (k', v') :: insertKV rest k v

/-- First value bound to `k` in an association list. -/
def lookupKV {V : Type} (k : Str) : List (Str × V) → Option V
  | [] => none
  | (k', v) :: rest => if k' = k then some v else lookupKV k rest

/-- Modelled from the spec: the key=value parsing that `_get_proj4_args`
delegates to the external `configobj` library (`ConfigObj(lines).dict()`),
whose source is not part of this repository.  Per the spec, each token is
split on its first `=`, the pairs are collected into an insertion-ordered
mapping in which a later duplicate key overwrites the earlier value, and a
token with no `=` is a format error (carrying the offending token). -/
def configObjParseAux (acc : List (Str × Str)) : List Str → Except Str (List (Str × Str))
  | [] => .ok acc
  | t :: ts =>
    match splitFirstEq t with
    | none => .error t
    | some (k, v) => configObjParseAux (insertKV acc k v) ts

/-- Modelled from the spec: see `configObjParseAux`. -/
def configObjParse (toks : List Str) : Except Str (List (Str × Str)) :=
  configObjParseAux [] toks

/-- Python `s.split()`: split on whitespace runs, discarding empty pieces.
`splitWSGroups` produces the raw groups; empty groups (from leading,
trailing or repeated whitespace) are dropped by `splitWS`. -/
def splitWSGroups (s : Str) : List Str :=
  s.foldr
    (fun c acc =>
      if c.isWhitespace then [] :: acc
      else
        match acc with
        | [] => [[c]]
        | g :: gs => (c :: g) :: gs)
    []

/-- Python `s.split()`. -/
def splitWS (s : Str) : List Str :=
  (splitWSGroups s).filter (fun g => g ≠ [])

/-- Source `_get_proj4_args` on a string argument:
`ConfigObj(proj4_args.replace('+', '').split())` — note that `replace`
removes every `+` character, wherever it occurs. -/
def get_proj4_args_ofString (s : Str) : Except Str (List (Str × Str)) :=
  configObjParse (splitWS (replaceAll ['+'] s))

/-- Source `_get_proj4_args` on an already-tokenized list argument:
`ConfigObj(proj4_args)` — no `+` stripping at all. -/
def get_proj4_args_ofList (toks : List Str) : Except Str (List (Str × Str)) :=
  configObjParse toks

/-- Follows the claim's words, not the source: strips only a leading `+`
from each whitespace-separated token of a string input, then parses the
tokens as key=value pairs.  Used to compare the claimed behaviour with
`get_proj4_args_ofString`. -/
def normalizeClaimStr (s : Str) : Except Str (List (Str × Str)) :=
  configObjParse ((splitWS s).map (fun t =>
    match t with
    | '+' :: r => r
    | t' => t'))

/-- The external, opaque `geometry.AreaDefinition` record, with its seven
constructor arguments in source order; `V` is the (dynamic) value type of
the dictionary entries passed through unchanged. -/
structure AreaDefinitionRec (V : Type) where
  area_id : V
  name : V
  proj_id : V
  proj_dict : V
  x_size : V
  y_size : V
  area_extent : V
deriving DecidableEq

/-- Dictionary key `PCS_ID`. -/
def pcsIdK : Str := ['P', 'C', 'S', '_', 'I', 'D']

/-- Dictionary key `NAME`. -/
def nameK : Str := ['N', 'A', 'M', 'E']

/-- Dictionary key `PCS_DEF`. -/
def pcsDefK : Str := ['P', 'C', 'S', '_', 'D', 'E', 'F']

/-- Dictionary key `XSIZE`. -/
def xsizeK : Str := ['X', 'S', 'I', 'Z', 'E']

/-- Dictionary key `YSIZE`. -/
def ysizeK : Str := ['Y', 'S', 'I', 'Z', 'E']

/-- Dictionary key `AREA_EXTENT`. -/
def extentK : Str := ['A', 'R', 'E', 'A', '_', 'E', 'X', 'T', 'E', 'N', 'T']

/-- The six dictionary keys read by `area_dict_to_area_def`. -/
def areaDictKeys : List Str := [pcsIdK, nameK, pcsDefK, xsizeK, ysizeK, extentK]

/-- Source `area_dict_to_area_def`: constructs the `geometry.AreaDefinition` record
from a dictionary, passing `area_dict['PCS_ID']` as both the first (area id)
and third (projection id) constructor argument.  `none` models the
`KeyError` raised when a key is absent. -/
def area_dict_to_area_def {V : Type} (area_dict : List (Str × V)) :
    Option (AreaDefinitionRec V) :=
  match lookupKV pcsIdK area_dict, lookupKV nameK area_dict,
      lookupKV pcsDefK area_dict, lookupKV xsizeK area_dict,
      lookupKV ysizeK area_dict, lookupKV extentK area_dict with
  | some pcs, some nm, some pd, some xs, some ys, some ex =>
    some ⟨pcs, nm, pcs, pd, xs, ys, ex⟩
  | _, _, _, _, _, _ => none

/-- Concrete line `REGION: A {\n` used in the concrete instances below. -/
def lineRegA : Str := regionColon ++ [' ', 'A', ' ', '{', '\n']

/-- Concrete line `REGION: B {\n`. -/
def lineRegB : Str := regionColon ++ [' ', 'B', ' ', '{', '\n']

/-- Concrete content line `x\n`. -/
def lineX : Str := ['x', '\n']

/-- Concrete content line `y\n`. -/
def lineY : Str := ['y', '\n']

/-- Concrete block terminator line `};\n`. -/
def lineClose : Str := ['}', ';', '\n']

/-- Concrete file path `p`. -/
def pathP : Str := ['p']

/-- The slot invariant maintained by the line loop in select mode: while
inside a block the current id is one of the requested names, and every
filled slot sits at the first index of its block's id in the requested list
and holds a successfully built value for that id. -/
def SlotInv {E A : Type} (names : List Str) (create : Str → Str → Except E A)
    (s : ScanState A) : Prop :=
  s.area_defs.length = names.length ∧
  (s.in_area = true → s.area_id ∈ names) ∧
  ∀ j a, s.area_defs[j]? = some (some a) →
    ∃ id c, id ∈ names ∧ listIndex id names = j ∧ create id c = .ok a

theorem scanLoop_append {E A : Type} (names : List Str) (create : Str → Str → Except E A)
    (l₁ l₂ : List Str) (s : ScanState A) :
    scanLoop names create (l₁ ++ l₂) s =
      match scanLoop names create l₁ s with
      | .error e => .error e
      | .ok s' => scanLoop names create l₂ s' := by
  induction l₁ generalizing s with
  | nil => simp [scanLoop]
  | cons l ls ih =>
    simp only [List.cons_append, scanLoop]
    cases processLine names create s l <;> simp [ih]

theorem processLine_in_block {E A : Type} (names : List Str) (create : Str → Str → Except E A)
    (aid ac : Str) (defs : List (Option A)) (l : Str)
    (hl : containsSub l closeBrace = false) :
    processLine names create ⟨true, aid, ac, defs⟩ l = .ok ⟨true, aid, ac ++ l, defs⟩ := by
  simp [processLine, hl]

theorem scanLoop_body_no_close {E A : Type} (names : List Str) (create : Str → Str → Except E A)
    (body : List Str) (aid ac : Str) (defs : List (Option A))
    (hb : ∀ l ∈ body, containsSub l closeBrace = false) :
    scanLoop names create body ⟨true, aid, ac, defs⟩ = .ok ⟨true, aid, ac ++ body.flatten, defs⟩ := by
  induction body generalizing ac with
  | nil => simp [scanLoop]
  | cons l ls ih =>
    have hl : containsSub l closeBrace = false := hb l (by simp)
    simp only [scanLoop, processLine_in_block names create aid ac defs l hl]
    rw [ih (ac ++ l) (fun x hx => hb x (by simp [hx]))]
    simp [List.flatten_cons, List.append_assoc]

theorem processLine_region_enter {E A : Type} (names : List Str) (create : Str → Str → Except E A)
    (aid₀ ac₀ : Str) (defs : List (Option A)) (line : Str)
    (hr : containsSub line regionTok = true)
    (hin : extractId line ∈ names ∨ names.isEmpty = true) :
    processLine names create ⟨false, aid₀, ac₀, defs⟩ line = .ok ⟨true, extractId line, [], defs⟩ := by
  simp [processLine, hr, hin]
  intro hnot
  rcases hin with h | h
  · exact absurd h hnot
  · exact List.isEmpty_iff.mp h

theorem processLine_close {E A : Type} (names : List Str) (create : Str → Str → Except E A)
    (aid ac : Str) (defs : List (Option A)) (line : Str) (v : A)
    (hl : containsSub line closeBrace = true)
    (hc : create aid ac = .ok v) :
    processLine names create ⟨true, aid, ac, defs⟩ line =
      .ok ⟨false, aid, ac,
        if names.isEmpty then defs ++ [some v] else defs.set (listIndex aid names) (some v)⟩ := by
  simp only [processLine, hl]
  rw [hc]
  by_cases he : names.isEmpty <;> simp [he]

theorem scanLoop_block {E A : Type} (names : List Str) (create : Str → Str → Except E A)
    (hdr term : Str) (body : List Str) (aid₀ ac₀ : Str) (defs : List (Option A)) (v : A)
    (hh : containsSub hdr regionTok = true)
    (hin : extractId hdr ∈ names ∨ names.isEmpty = true)
    (hb : ∀ l ∈ body, containsSub l closeBrace = false)
    (ht : containsSub term closeBrace = true)
    (hc : create (extractId hdr) body.flatten = .ok v) :
    scanLoop names create (hdr :: (body ++ [term])) ⟨false, aid₀, ac₀, defs⟩ =
      .ok ⟨false, extractId hdr, body.flatten,
        if names.isEmpty then defs ++ [some v]
        else defs.set (listIndex (extractId hdr) names) (some v)⟩ := by
  simp only [scanLoop, processLine_region_enter names create aid₀ ac₀ defs hdr hh hin]
  rw [scanLoop_append names create body [term] _]
  rw [scanLoop_body_no_close names create body (extractId hdr) [] defs hb]
  simp only [List.nil_append, scanLoop]
  rw [processLine_close names create (extractId hdr) body.flatten defs term v ht hc]

theorem processLine_defs_length {E A : Type} (names : List Str) (create : Str → Str → Except E A)
    (s s' : ScanState A) (l : Str)
    (hne : names.isEmpty = false)
    (h : processLine names create s l = .ok s') :
    s'.area_defs.length = s.area_defs.length := by
  unfold processLine at h
  split at h
  · split at h
    · split at h <;> (injection h with h'; rw [← h'])
    · injection h with h'; rw [← h']
  · split at h
    · split at h
      · exact absurd h (by simp)
      · split at h
        · simp_all
        · injection h with h'
          rw [← h']
          simp [List.length_set]
    · injection h with h'; rw [← h']

theorem scanLoop_defs_length {E A : Type} (names : List Str) (create : Str → Str → Except E A)
    (lines : List Str) (s s' : ScanState A)
    (hne : names.isEmpty = false)
    (h : scanLoop names create lines s = .ok s') :
    s'.area_defs.length = s.area_defs.length := by
  induction lines generalizing s with
  | nil =>
    unfold scanLoop at h
    injection h with h'
    rw [h']
  | cons l ls ih =>
    unfold scanLoop at h
    split at h
    · exact absurd h (by simp)
    · next s'' heq =>
      rw [ih s'' h, processLine_defs_length names create s s'' l hne heq]

theorem listIndex_lt_length (x : Str) (l : List Str) (h : x ∈ l) :
    listIndex x l < l.length := by
  induction l with
  | nil => cases h
  | cons y ys ih =>
    by_cases hy : y = x
    · simp [listIndex, hy]
    · have hx : x ∈ ys := by
        cases h with
        | head => exact absurd rfl hy
        | tail _ h' => exact h'
      simp only [listIndex, if_neg hy, List.length_cons]
      exact Nat.succ_lt_succ (ih hx)

theorem listIndex_getElem? (x : Str) (l : List Str) (h : x ∈ l) :
    l[listIndex x l]? = some x := by
  induction l with
  | nil => cases h
  | cons y ys ih =>
    by_cases hy : y = x
    · simp [listIndex, hy]
    · have hx : x ∈ ys := by
        cases h with
        | head => exact absurd rfl hy
        | tail _ h' => exact h'
      simp only [listIndex, if_neg hy, List.getElem?_cons_succ]
      exact ih hx

theorem listIndex_le (x : Str) (l : List Str) (i : Nat) (h : l[i]? = some x) :
    listIndex x l ≤ i := by
  induction l generalizing i with
  | nil => simp at h
  | cons y ys ih =>
    by_cases hy : y = x
    · simp [listIndex, hy]
    · cases i with
      | zero =>
        rw [List.getElem?_cons_zero] at h
        injection h with h'
        exact absurd h' hy
      | succ i' =>
        rw [List.getElem?_cons_succ] at h
        simp only [listIndex, if_neg hy]
        exact Nat.succ_le_succ (ih i' h)

theorem processLine_slotInv {E A : Type} (names : List Str) (create : Str → Str → Except E A)
    (s s' : ScanState A) (l : Str)
    (hne : names.isEmpty = false)
    (hinv : SlotInv names create s)
    (h : processLine names create s l = .ok s') :
    SlotInv names create s' := by
  obtain ⟨hlen, hmem, hslots⟩ := hinv
  unfold processLine at h
  split at h
  · split at h
    · split at h
      · next hin =>
        injection h with h'
        rw [← h']
        refine ⟨hlen, fun _ => ?_, hslots⟩
        rcases hin with hin | hin
        · exact hin
        · rw [hne] at hin; cases hin
      · injection h with h'
        rw [← h']
        refine ⟨hlen, fun hc => ?_, hslots⟩
        simp at hc
    · injection h with h'
      rw [← h']
      exact ⟨hlen, hmem, hslots⟩
  · next hout =>
    have hia : s.in_area = true := by
      cases hv : s.in_area
      · exact absurd hv hout
      · rfl
    split at h
    · split at h
      · exact absurd h (by simp)
      · next v hv =>
        split at h
        · simp_all
        · injection h with h'
          rw [← h']
          have hidx : listIndex s.area_id names < s.area_defs.length := by
            rw [hlen]
            exact listIndex_lt_length s.area_id names (hmem hia)
          refine ⟨by simp [List.length_set, hlen], fun hc => ?_, fun j a hj => ?_⟩
          · simp at hc
          · by_cases hji : j = listIndex s.area_id names
            · subst hji
              rw [List.getElem?_set_self hidx] at hj
              injection hj with hj'
              injection hj' with hj''
              exact ⟨s.area_id, s.area_content, hmem hia, rfl, by rw [hv, hj'']⟩
            · rw [List.getElem?_set_ne (by omega)] at hj
              exact hslots j a hj
    · injection h with h'
      rw [← h']
      exact ⟨hlen, fun _ => hmem hia, hslots⟩

theorem scanLoop_slotInv {E A : Type} (names : List Str) (create : Str → Str → Except E A)
    (lines : List Str) (s s' : ScanState A)
    (hne : names.isEmpty = false)
    (hinv : SlotInv names create s)
    (h : scanLoop names create lines s = .ok s') :
    SlotInv names create s' := by
  induction lines generalizing s with
  | nil =>
    unfold scanLoop at h
    injection h with h'
    rw [← h']
    exact hinv
  | cons l ls ih =>
    unfold scanLoop at h
    split at h
    · exact absurd h (by simp)
    · next s'' heq =>
      exact ih s'' (processLine_slotInv names create s s'' l hne hinv heq) h

theorem initState_slotInv {E A : Type} (names : List Str) (create : Str → Str → Except E A)
    (hne : names.isEmpty = false) :
    SlotInv names create (initState (A := A) names) := by
  refine ⟨?_, fun hc => ?_, fun j a hj => ?_⟩
  · simp [initState, hne]
  · simp [initState] at hc
  · simp only [initState, hne, Bool.false_eq_true, if_false, List.getElem?_map] at hj
    cases hx : names[j]? with
    | none => rw [hx] at hj; cases hj
    | some x =>
      rw [hx] at hj
      simp at hj

theorem processLine_mkRawBlock_ok (names : List Str) (s : ScanState (Str × Str)) (l : Str) :
    ∃ s', processLine names mkRawBlock s l = .ok s' := by
  unfold processLine
  split
  · split
    · split
      · exact ⟨_, rfl⟩
      · exact ⟨_, rfl⟩
    · exact ⟨_, rfl⟩
  · split
    · simp only [mkRawBlock]
      split
      · exact ⟨_, rfl⟩
      · exact ⟨_, rfl⟩
    · exact ⟨_, rfl⟩

theorem scanLoop_mkRawBlock_ok (names : List Str) (lines : List Str) (s : ScanState (Str × Str)) :
    ∃ s', scanLoop names mkRawBlock lines s = .ok s' := by
  induction lines generalizing s with
  | nil => exact ⟨s, rfl⟩
  | cons l ls ih =>
    obtain ⟨s'', hs''⟩ := processLine_mkRawBlock_ok names s l
    obtain ⟨s', hs'⟩ := ih s''
    exact ⟨s', by rw [scanLoop, hs'']; exact hs'⟩

theorem checkFound_first_none {E A : Type} (path : Str) (ps : List (Str × Option A))
    (i : Nat) (n : Str)
    (hi : ps[i]? = some (n, none))
    (hfirst : ∀ k p, k < i → ps[k]? = some p → p.2 ≠ none) :
    checkFound (E := E) path ps = .error (.areaNotFound n path) := by
  induction ps generalizing i with
  | nil => simp at hi
  | cons p rest ih =>
    cases i with
    | zero =>
      rw [List.getElem?_cons_zero] at hi
      injection hi with hi'
      subst hi'
      rfl
    | succ i' =>
      rw [List.getElem?_cons_succ] at hi
      have hp : p.2 ≠ none :=
        hfirst 0 p (Nat.zero_lt_succ i') (List.getElem?_cons_zero)
      obtain ⟨pn, po⟩ := p
      cases po with
      | none => exact absurd rfl hp
      | some a =>
        have hrest : checkFound (E := E) path rest = .error (.areaNotFound n path) :=
          ih i' hi (fun k q hk hq =>
            hfirst (k + 1) q (Nat.succ_lt_succ hk) (by rw [List.getElem?_cons_succ]; exact hq))
        unfold checkFound
        rw [hrest]

theorem checkFound_error_areaNotFound {E A : Type} (path : Str) (ps : List (Str × Option A))
    (e : ParseError E)
    (h : checkFound path ps = .error e) :
    ∃ n, e = .areaNotFound n path := by
  induction ps generalizing e with
  | nil => cases h
  | cons p rest ih =>
    obtain ⟨pn, po⟩ := p
    cases po with
    | none =>
      unfold checkFound at h
      injection h with h'
      exact ⟨pn, h'.symm⟩
    | some a =>
      unfold checkFound at h
      cases hr : checkFound (E := E) path rest with
      | error e' =>
        rw [hr] at h
        injection h with h'
        obtain ⟨n, hn⟩ := ih e' hr
        exact ⟨n, h' ▸ hn⟩
      | ok res =>
        rw [hr] at h
        cases h

theorem checkFound_error_of_none {E A : Type} (path : Str) (ps : List (Str × Option A))
    (j : Nat) (n : Str)
    (hj : ps[j]? = some (n, none)) :
    ∃ n', checkFound (E := E) path ps = .error (.areaNotFound n' path) := by
  induction ps generalizing j with
  | nil => simp at hj
  | cons p rest ih =>
    obtain ⟨pn, po⟩ := p
    cases po with
    | none => exact ⟨pn, rfl⟩
    | some a =>
      cases j with
      | zero =>
        rw [List.getElem?_cons_zero] at hj
        injection hj with hj'
        injection hj'
        simp_all
      | succ j' =>
        rw [List.getElem?_cons_succ] at hj
        obtain ⟨n', hn'⟩ := ih j' hj
        refine ⟨n', ?_⟩
        unfold checkFound
        rw [hn']

theorem checkFound_ok {E A : Type} (path : Str) (ps : List (Str × Option A)) (res : List A)
    (h : checkFound (E := E) path ps = .ok res) :
    res.length = ps.length ∧
    ∀ (j : Nat) (n : Str) (o : Option A), ps[j]? = some (n, o) →
      ∃ a, o = some a ∧ res[j]? = some a := by
  induction ps generalizing res with
  | nil =>
    unfold checkFound at h
    injection h with h'
    rw [← h']
    exact ⟨rfl, fun j n o hj => by simp at hj⟩
  | cons p rest ih =>
    obtain ⟨pn, po⟩ := p
    cases po with
    | none => cases h
    | some a =>
      unfold checkFound at h
      cases hr : checkFound (E := E) path rest with
      | error e => rw [hr] at h; cases h
      | ok res' =>
        rw [hr] at h
        injection h with h'
        obtain ⟨hlen, hget⟩ := ih res' hr
        subst h'
        refine ⟨by simp [hlen], fun j n o hj => ?_⟩
        cases j with
        | zero =>
          rw [List.getElem?_cons_zero] at hj
          injection hj with hj'
          injection hj' with hj₁ hj₂
          exact ⟨a, by rw [← hj₂], List.getElem?_cons_zero⟩
        | succ j' =>
          rw [List.getElem?_cons_succ] at hj
          obtain ⟨a', ha₁, ha₂⟩ := hget j' n o hj
          exact ⟨a', ha₁, by rw [List.getElem?_cons_succ]; exact ha₂⟩

theorem lookupAll_getElem? (xs : List Int) (idx : List Nat) (ys : List Int)
    (h : lookupAll xs idx = some ys) :
    ys.length = idx.length ∧
    ∀ (i e : Nat), idx[i]? = some e → ∃ v, xs[e]? = some v ∧ ys[i]? = some v := by
  induction idx generalizing ys with
  | nil =>
    unfold lookupAll at h
    injection h with h'
    subst h'
    exact ⟨rfl, fun i e hi => by simp at hi⟩
  | cons e' es ih =>
    unfold lookupAll at h
    cases hx : xs[e']? with
    | none => rw [hx] at h; cases h
    | some v =>
      rw [hx] at h
      cases hr : lookupAll xs es with
      | none => rw [hr] at h; cases h
      | some vs =>
        rw [hr] at h
        injection h with h'
        subst h'
        obtain ⟨hlen, hget⟩ := ih vs hr
        refine ⟨by simp [hlen], fun i e hi => ?_⟩
        cases i with
        | zero =>
          rw [List.getElem?_cons_zero] at hi
          injection hi with hi'
          subst hi'
          exact ⟨v, hx, List.getElem?_cons_zero⟩
        | succ i' =>
          rw [List.getElem?_cons_succ] at hi
          obtain ⟨v', h1, h2⟩ := hget i' e hi
          exact ⟨v', h1, by rw [List.getElem?_cons_succ]; exact h2⟩

theorem dropWhile_ne_eq_nil (t : Str) (h : ∀ c ∈ t, c ≠ '=') :
    t.dropWhile (fun c => c ≠ '=') = [] := by
  induction t with
  | nil => rfl
  | cons c cs ih =>
    rw [List.dropWhile_cons, if_pos (by simpa using h c (by simp))]
    exact ih (fun x hx => h x (by simp [hx]))

theorem splitFirstEq_none (t : Str) (h : ∀ c ∈ t, c ≠ '=') : splitFirstEq t = none := by
  unfold splitFirstEq
  rw [dropWhile_ne_eq_nil t h]

theorem dropWhile_ne_append (k v : Str) (h : ∀ c ∈ k, c ≠ '=') :
    (k ++ '=' :: v).dropWhile (fun c => c ≠ '=') = '=' :: v := by
  induction k with
  | nil => simp [List.dropWhile_cons]
  | cons c cs ih =>
    rw [List.cons_append, List.dropWhile_cons, if_pos (by simpa using h c (by simp))]
    exact ih (fun x hx => h x (by simp [hx]))

theorem takeWhile_ne_append (k v : Str) (h : ∀ c ∈ k, c ≠ '=') :
    (k ++ '=' :: v).takeWhile (fun c => c ≠ '=') = k := by
  induction k with
  | nil => simp [List.takeWhile_cons]
  | cons c cs ih =>
    rw [List.cons_append, List.takeWhile_cons, if_pos (by simpa using h c (by simp))]
    rw [ih (fun x hx => h x (by simp [hx]))]

theorem splitFirstEq_append_eq (k v : Str) (h : ∀ c ∈ k, c ≠ '=') :
    splitFirstEq (k ++ '=' :: v) = some (k, v) := by
  unfold splitFirstEq
  rw [dropWhile_ne_append k v h, takeWhile_ne_append k v h]

theorem lookupKV_insertKV_self (m : List (Str × Str)) (k v : Str) :
    lookupKV k (insertKV m k v) = some v := by
  induction m with
  | nil => simp [insertKV, lookupKV]
  | cons p rest ih =>
    obtain ⟨k', v'⟩ := p
    by_cases hk : k' = k
    · simp [insertKV, hk, lookupKV]
    · simp [insertKV, hk, lookupKV, ih]

theorem configObjParseAux_cons_none (acc : List (Str × Str)) (t : Str) (ts : List Str)
    (hsp : splitFirstEq t = none) :
    configObjParseAux acc (t :: ts) = .error t := by
  conv_lhs => rw [configObjParseAux]
  rw [hsp]

theorem configObjParseAux_cons_some (acc : List (Str × Str)) (t k v : Str) (ts : List Str)
    (hsp : splitFirstEq t = some (k, v)) :
    configObjParseAux acc (t :: ts) = configObjParseAux (insertKV acc k v) ts := by
  conv_lhs => rw [configObjParseAux]
  rw [hsp]

theorem configObjParseAux_append (acc : List (Str × Str)) (l₁ l₂ : List Str) :
    configObjParseAux acc (l₁ ++ l₂) =
      match configObjParseAux acc l₁ with
      | .error e => .error e
      | .ok m => configObjParseAux m l₂ := by
  induction l₁ generalizing acc with
  | nil => simp [configObjParseAux]
  | cons t ts ih =>
    rw [List.cons_append]
    cases hsp : splitFirstEq t with
    | none =>
      rw [configObjParseAux_cons_none acc t (ts ++ l₂) hsp,
          configObjParseAux_cons_none acc t ts hsp]
    | some kv =>
      obtain ⟨k, v⟩ := kv
      rw [configObjParseAux_cons_some acc t k v (ts ++ l₂) hsp,
          configObjParseAux_cons_some acc t k v ts hsp]
      exact ih (insertKV acc k v)

theorem configObjParseAux_error_of_no_eq (toks : List Str) (t : Str) (acc : List (Str × Str))
    (ht : t ∈ toks) (hsp : splitFirstEq t = none) :
    ∃ bad, configObjParseAux acc toks = .error bad := by
  induction toks generalizing acc with
  | nil => cases ht
  | cons t' ts ih =>
    unfold configObjParseAux
    cases hsp' : splitFirstEq t' with
    | none => exact ⟨t', rfl⟩
    | some kv =>
      obtain ⟨k, v⟩ := kv
      rcases List.mem_cons.mp ht with h | h
      · subst h
        rw [hsp'] at hsp
        cases hsp
      · exact ih (insertKV acc k v) h

theorem parse_area_file_checkFound {E A : Type} (path : Str) (lines : List Str)
    (names : List Str) (create : Str → Str → Except E A) (s : ScanState A)
    (hne : names.isEmpty = false)
    (hscan : scanLoop names create lines (initState names) = .ok s) :
    parse_area_file path lines names create =
      match checkFound (E := E) path (names.zip s.area_defs) with
      | .error err => .error err
      | .ok res => .ok res := by
  unfold parse_area_file parse_area_file_run
  rw [hscan]
  cases hcf : checkFound (E := E) path (names.zip s.area_defs) with
  | error err => simp [hne, hcf]
  | ok res => simp [hne, hcf]

theorem parse_area_file_run_selectAll {E A : Type} (path : Str) (lines : List Str)
    (create : Str → Str → Except E A) (s : ScanState A)
    (hscan : scanLoop [] create lines (initState []) = .ok s) :
    parse_area_file_run path lines [] create = (.ok s.area_defs.reduceOption, true) := by
  unfold parse_area_file_run
  rw [hscan]
  simp

/-- C1: counterexample.  Requesting `A` from a file in which `A` appears as
two blocks with different contents returns the record built from the
*second* block, while parsing the first block alone shows the first block
yields a different record — so the first matching block is not the one
kept. -/
theorem parse_first_match_cex :
    parse_area_file pathP [lineRegA, lineX, lineClose, lineRegA, lineY, lineClose]
        [['A']] mkRawBlock = .ok [(['A'], lineY)] ∧
    parse_area_file pathP [lineRegA, lineX, lineClose] [['A']] mkRawBlock =
        .ok [(['A'], lineX)] ∧
    (lineY : Str) ≠ lineX :=
  ⟨rfl, rfl, by decide⟩

/-- C1 (amended): when a requested name matches more than one complete
REGION block, the slot is indexed by name and is overwritten at every
match, so `parse_area_file` returns the record built from the *last*
matching block. -/
theorem parse_last_match_wins {E A : Type} (path : Str) (create : Str → Str → Except E A)
    (X : Str) (hdr1 hdr2 term1 term2 : Str) (body1 body2 : List Str) (a1 a2 : A)
    (hh1 : containsSub hdr1 regionTok = true) (he1 : extractId hdr1 = X)
    (hb1 : ∀ l ∈ body1, containsSub l closeBrace = false)
    (ht1 : containsSub term1 closeBrace = true)
    (hh2 : containsSub hdr2 regionTok = true) (he2 : extractId hdr2 = X)
    (hb2 : ∀ l ∈ body2, containsSub l closeBrace = false)
    (ht2 : containsSub term2 closeBrace = true)
    (hc1 : create X body1.flatten = .ok a1) (hc2 : create X body2.flatten = .ok a2) :
    parse_area_file path
      ((hdr1 :: (body1 ++ [term1])) ++ (hdr2 :: (body2 ++ [term2]))) [X] create =
      .ok [a2] := by
  have h1 : scanLoop [X] create (hdr1 :: (body1 ++ [term1]))
      (⟨false, [], [], [none]⟩ : ScanState A) = .ok ⟨false, X, body1.flatten, [some a1]⟩ := by
    rw [scanLoop_block [X] create hdr1 term1 body1 [] [] [none] a1 hh1
        (Or.inl (by rw [he1]; exact List.mem_singleton_self X)) hb1 ht1
        (by rw [he1]; exact hc1)]
    rw [he1]
    simp [listIndex]
  have h2 : scanLoop [X] create (hdr2 :: (body2 ++ [term2]))
      (⟨false, X, body1.flatten, [some a1]⟩ : ScanState A) =
      .ok ⟨false, X, body2.flatten, [some a2]⟩ := by
    rw [scanLoop_block [X] create hdr2 term2 body2 X body1.flatten [some a1] a2 hh2
        (Or.inl (by rw [he2]; exact List.mem_singleton_self X)) hb2 ht2
        (by rw [he2]; exact hc2)]
    rw [he2]
    simp [listIndex]
  have hscan : scanLoop [X] create
      ((hdr1 :: (body1 ++ [term1])) ++ (hdr2 :: (body2 ++ [term2])))
      (initState [X]) = .ok ⟨false, X, body2.flatten, [some a2]⟩ := by
    rw [scanLoop_append]
    rw [show initState (A := A) [X] = ⟨false, [], [], [none]⟩ from by simp [initState]]
    rw [h1]
    exact h2
  rw [parse_area_file_checkFound path _ [X] create _ rfl hscan]
  rfl

/-- C1 (amended), witness: the two-block overwrite at a concrete file. -/
theorem parse_last_match_wins_witness :
    parse_area_file pathP
      ((lineRegA :: ([lineX] ++ [lineClose])) ++ (lineRegA :: ([lineY] ++ [lineClose])))
      [['A']] mkRawBlock = .ok [(['A'], [lineY].flatten)] :=
  parse_last_match_wins pathP mkRawBlock ['A'] lineRegA lineRegA lineClose lineClose
    [lineX] [lineY] (['A'], [lineX].flatten) (['A'], [lineY].flatten)
    (by decide) (by decide) (by decide) (by decide)
    (by decide) (by decide) (by decide) (by decide) rfl rfl

/-- C2: counterexample.  When `_create_area` fails on a block, the exception
propagates out of the line loop before `area_file.close()` at line 78 is
reached: the run returns the builder error with the close flag still
`false`, so this exit path leaves the file handle open. -/
theorem parse_create_failure_leaves_file_open :
    parse_area_file_run pathP [lineRegA, lineX, lineClose] [['A']] failBlock =
      (.error (.createError ()), false) := rfl

/-- C2 (amended): `parse_area_file` closes the file on successful return and
before raising `AreaNotFound`, but a failure raised while building a
block's area record propagates without the close call running: the close
flag is `false` exactly when the result is a propagated builder error. -/
theorem parse_close_iff_no_create_error {E A : Type} (path : Str) (lines : List Str)
    (names : List Str) (create : Str → Str → Except E A) :
    (parse_area_file_run path lines names create).2 = false ↔
      ∃ e, (parse_area_file_run path lines names create).1 = .error (.createError e) := by
  unfold parse_area_file_run
  cases hscan : scanLoop names create lines (initState names) with
  | error e => exact ⟨fun _ => ⟨e, rfl⟩, fun _ => rfl⟩
  | ok s =>
    cases hcf : checkFound (E := E) path (names.zip s.area_defs) with
    | error err =>
      obtain ⟨n, hn⟩ := checkFound_error_areaNotFound path _ err hcf
      subst hn
      by_cases he : names.isEmpty = true
      · simp [he]
      · simp [he, hcf]
    | ok res =>
      by_cases he : names.isEmpty = true
      · simp [he]
      · simp [he, hcf]

/-- C5: when the scan finishes and the slot of a requested name is still
empty, `parse_area_file` raises `AreaNotFound` carrying the file path and
the name of the *first* unresolved slot in requested order. -/
theorem parse_reports_first_unresolved {E A : Type} (path : Str) (lines : List Str)
    (names : List Str) (create : Str → Str → Except E A) (s : ScanState A)
    (i : Nat) (nm : Str)
    (hscan : scanLoop names create lines (initState names) = .ok s)
    (hne : names.isEmpty = false)
    (hnm : names[i]? = some nm)
    (hnone : s.area_defs[i]? = some none)
    (hfirst : ∀ k, k < i → s.area_defs[k]? ≠ some none) :
    parse_area_file path lines names create = .error (.areaNotFound nm path) := by
  rw [parse_area_file_checkFound path lines names create s hne hscan]
  have hzip : (names.zip s.area_defs)[i]? = some (nm, none) :=
    List.getElem?_zip_eq_some.mpr ⟨hnm, hnone⟩
  have hcf : checkFound (E := E) path (names.zip s.area_defs) =
      .error (.areaNotFound nm path) := by
    apply checkFound_first_none path _ i nm hzip
    intro k p hk hp
    obtain ⟨h1, h2⟩ := List.getElem?_zip_eq_some.mp hp
    intro hp2
    rw [hp2] at h2
    exact hfirst k hk h2
  rw [hcf]

/-- C5, witness: requesting `[A, D]` from a file holding only `A` fails with
`AreaNotFound` for `D` and the path. -/
theorem parse_reports_first_unresolved_witness :
    parse_area_file pathP [lineRegA, lineClose] [['A'], ['D']] mkRawBlock =
      .error (.areaNotFound ['D'] pathP) := by
  apply parse_reports_first_unresolved pathP [lineRegA, lineClose] [['A'], ['D']]
      mkRawBlock ⟨false, ['A'], [], [some (['A'], []), none]⟩ 1 ['D'] rfl rfl rfl rfl
  intro k hk
  have hk0 : k = 0 := by omega
  subst hk0
  decide

/-- C6: when every requested name resolves, the records come back in
requested order: slot `j` of the result was built (by the abstracted
`_create_area`) for exactly the `j`-th requested name, whatever order the
blocks had in the file. -/
theorem parse_returns_requested_order {E A : Type} (path : Str) (lines : List Str)
    (names : List Str) (create : Str → Str → Except E A) (res : List A)
    (hne : names.isEmpty = false)
    (hok : parse_area_file path lines names create = .ok res) :
    res.length = names.length ∧
    ∀ (j : Nat) (n : Str), names[j]? = some n →
      ∃ c a, res[j]? = some a ∧ create n c = .ok a := by
  cases hscan : scanLoop names create lines (initState names) with
  | error e =>
    rw [parse_area_file, parse_area_file_run, hscan] at hok
    cases hok
  | ok s =>
    rw [parse_area_file_checkFound path lines names create s hne hscan] at hok
    cases hcf : checkFound (E := E) path (names.zip s.area_defs) with
    | error err => rw [hcf] at hok; cases hok
    | ok res' =>
      rw [hcf] at hok
      injection hok with hres
      subst hres
      obtain ⟨hlen, hmem, hslots⟩ := scanLoop_slotInv names create lines
        (initState names) s hne (initState_slotInv names create hne) hscan
      obtain ⟨hcl, hcg⟩ := checkFound_ok path (names.zip s.area_defs) res' hcf
      constructor
      · rw [hcl, List.length_zip names s.area_defs, hlen]
        exact Nat.min_self names.length
      · intro j n hj
        have hjlt : j < names.length := by
          rcases List.getElem?_eq_some_iff.mp hj with ⟨h, _⟩
          exact h
        have hjd : j < s.area_defs.length := by rw [hlen]; exact hjlt
        obtain ⟨o, ho⟩ : ∃ o, s.area_defs[j]? = some o :=
          ⟨s.area_defs[j], List.getElem?_eq_getElem hjd⟩
        have hzip : (names.zip s.area_defs)[j]? = some (n, o) :=
          List.getElem?_zip_eq_some.mpr ⟨hj, ho⟩
        obtain ⟨a, hoa, hresj⟩ := hcg j n o hzip
        subst hoa
        obtain ⟨id, c, hidmem, hidx, hcr⟩ := hslots j a ho
        have hid : names[j]? = some id := by
          rw [← hidx]
          exact listIndex_getElem? id names hidmem
        rw [hj] at hid
        injection hid with hid'
        exact ⟨c, a, hresj, by rw [hid']; exact hcr⟩

/-- C6, witness: requesting `[B, A]` from a file with blocks `[A, B]` in
file order returns the records in requested order, so slot 0 was built for
`B`. -/
theorem parse_returns_requested_order_witness :
    ∃ c a, ([(['B'], ([] : Str)), (['A'], ([] : Str))] : List (Str × Str))[0]? = some a ∧
      mkRawBlock ['B'] c = .ok a :=
  (parse_returns_requested_order pathP [lineRegA, lineClose, lineRegB, lineClose]
    [['B'], ['A']] mkRawBlock [(['B'], []), (['A'], [])] rfl rfl).2 0 ['B'] rfl

/-- C8: a REGION block whose header is scanned but which reaches the end of
the input without a closing `};` line is silently discarded: with zero
names requested, appending the unterminated block to any file leaves
`parse_area_file`'s outcome (result and close flag) exactly as if the
block were absent. -/
theorem parse_unterminated_block_discarded {E A : Type} (path : Str)
    (create : Str → Str → Except E A) (pre : List Str) (hdr : Str) (body : List Str)
    (s : ScanState A)
    (hscan : scanLoop [] create pre (initState []) = .ok s)
    (hout : s.in_area = false)
    (hh : containsSub hdr regionTok = true)
    (hb : ∀ l ∈ body, containsSub l closeBrace = false) :
    parse_area_file_run path (pre ++ hdr :: body) [] create =
      parse_area_file_run path pre [] create := by
  obtain ⟨ia, aid, ac, defs⟩ := s
  have hia : ia = false := hout
  subst hia
  have hblock : scanLoop [] create (hdr :: body) (⟨false, aid, ac, defs⟩ : ScanState A) =
      .ok ⟨true, extractId hdr, body.flatten, defs⟩ := by
    have h1 := processLine_region_enter [] create aid ac defs hdr hh (Or.inr rfl)
    rw [scanLoop, h1]
    exact scanLoop_body_no_close [] create body (extractId hdr) [] defs hb
  have hscanfull : scanLoop [] create (pre ++ hdr :: body) (initState []) =
      .ok ⟨true, extractId hdr, body.flatten, defs⟩ := by
    rw [scanLoop_append, hscan]
    exact hblock
  rw [parse_area_file_run_selectAll path (pre ++ hdr :: body) create _ hscanfull,
      parse_area_file_run_selectAll path pre create _ hscan]

/-- C8, witness: appending an unterminated `B` block to a file with one
complete `A` block leaves the select-all parse unchanged. -/
theorem parse_unterminated_block_discarded_witness :
    parse_area_file_run pathP ([lineRegA, lineClose] ++ lineRegB :: [lineX]) []
      mkRawBlock = parse_area_file_run pathP [lineRegA, lineClose] [] mkRawBlock :=
  parse_unterminated_block_discarded pathP mkRawBlock [lineRegA, lineClose] lineRegB
    [lineX] ⟨false, ['A'], [], [some (['A'], [])]⟩ rfl rfl (by decide) (by decide)

/-- C9: when the requested-name list contains the same name twice, every
matching block fills only the slot at the name's first index, the later
duplicate slot stays empty for every successful scan, and the call always
fails with `AreaNotFound`; with request `[x, x]` the reported name is `x`
itself even when a matching block exists. -/
theorem parse_duplicate_request_fails :
    (∀ (path : Str) (lines : List Str) (names : List Str) (i j : Nat) (x : Str),
        i < j → names[i]? = some x → names[j]? = some x →
        (∀ s : ScanState (Str × Str),
            scanLoop names mkRawBlock lines (initState names) = .ok s →
            s.area_defs[j]? = some none) ∧
        ∃ n, parse_area_file path lines names mkRawBlock =
          .error (.areaNotFound n path)) ∧
    (∀ (path : Str) (lines : List Str) (x : Str),
        parse_area_file path lines [x, x] mkRawBlock = .error (.areaNotFound x path)) := by
  have key : ∀ (names : List Str) (i j : Nat) (x : Str) (lines : List Str),
      i < j → names[i]? = some x → names[j]? = some x →
      ∀ s : ScanState (Str × Str),
        scanLoop names mkRawBlock lines (initState names) = .ok s →
        s.area_defs[j]? = some none := by
    intro names i j x lines hij hi hj s hscan
    have hne : names.isEmpty = false := by
      cases names with
      | nil => simp at hi
      | cons y ys => rfl
    obtain ⟨hlen, hmem, hslots⟩ := scanLoop_slotInv names mkRawBlock lines
      (initState names) s hne (initState_slotInv names mkRawBlock hne) hscan
    have hjlt : j < names.length := by
      rcases List.getElem?_eq_some_iff.mp hj with ⟨h, _⟩
      exact h
    have hjd : j < s.area_defs.length := by rw [hlen]; exact hjlt
    obtain ⟨o, ho⟩ : ∃ o, s.area_defs[j]? = some o :=
      ⟨s.area_defs[j], List.getElem?_eq_getElem hjd⟩
    cases o with
    | none => exact ho
    | some a =>
      obtain ⟨id, c, hidmem, hidx, _⟩ := hslots j a ho
      have hid : names[j]? = some id := by
        rw [← hidx]
        exact listIndex_getElem? id names hidmem
      rw [hj] at hid
      injection hid with hid'
      rw [← hid'] at hidx
      have : listIndex x names ≤ i := listIndex_le x names i hi
      omega
  constructor
  · intro path lines names i j x hij hi hj
    have hne : names.isEmpty = false := by
      cases names with
      | nil => simp at hi
      | cons y ys => rfl
    refine ⟨key names i j x lines hij hi hj, ?_⟩
    obtain ⟨s, hscan⟩ := scanLoop_mkRawBlock_ok names lines (initState names)
    have hnone := key names i j x lines hij hi hj s hscan
    have hzip : (names.zip s.area_defs)[j]? = some (x, none) :=
      List.getElem?_zip_eq_some.mpr ⟨hj, hnone⟩
    obtain ⟨n', hcf⟩ := checkFound_error_of_none (E := Unit) path
      (names.zip s.area_defs) j x hzip
    refine ⟨n', ?_⟩
    rw [parse_area_file_checkFound path lines names mkRawBlock s hne hscan, hcf]
  · intro path lines x
    obtain ⟨s, hscan⟩ := scanLoop_mkRawBlock_ok [x, x] lines (initState [x, x])
    have hnone := key [x, x] 0 1 x lines (by omega) rfl rfl s hscan
    obtain ⟨hlen, hmem, hslots⟩ := scanLoop_slotInv [x, x] mkRawBlock lines
      (initState [x, x]) s rfl (initState_slotInv [x, x] mkRawBlock rfl) hscan
    obtain ⟨o0, o1, hdefs⟩ := List.length_eq_two.mp hlen
    rw [hdefs] at hnone
    have ho1 : o1 = none := by
      simpa using hnone
    subst ho1
    rw [parse_area_file_checkFound path lines [x, x] mkRawBlock s rfl hscan, hdefs]
    cases o0 with
    | none => rfl
    | some a => rfl

/-- C9, witness: requesting `[A, A]` from a file that does contain a block
`A` still fails with `AreaNotFound` for some name. -/
theorem parse_duplicate_request_fails_witness :
    ∃ n, parse_area_file pathP [lineRegA, lineClose] [['A'], ['A']] mkRawBlock =
      .error (.areaNotFound n pathP) :=
  (parse_duplicate_request_fails.1 pathP [lineRegA, lineClose] [['A'], ['A']] 0 1 ['A']
    (by omega) rfl rfl).2

/-- C3: in a successful run of
`generate_nearest_neighbour_linesample_arrays`, a target position whose
`index_array` entry equals the number of valid source pixels gets `-1` in
both outputs, and every other position gets the `rows_valid`/`cols_valid`
value at its own `index_array` entry, unaffected by the sentinel
substitution elsewhere. -/
theorem nearest_neighbour_sentinel (src_shape target_shape : Nat × Nat)
    (valid_index : List Bool) (index_array : List Nat) (rs cs : List Int)
    (i e : Nat)
    (hres : generate_nearest_neighbour_linesample_arrays src_shape target_shape
      valid_index index_array = some (rs, cs))
    (hie : index_array[i]? = some e) :
    (e = nvpOf valid_index → rs[i]? = some (-1) ∧ cs[i]? = some (-1)) ∧
    (e ≠ nvpOf valid_index →
      rs[i]? = (rowsValidOf src_shape valid_index)[e]? ∧
      cs[i]? = (colsValidOf src_shape valid_index)[e]?) := by
  unfold generate_nearest_neighbour_linesample_arrays at hres
  split at hres
  · split at hres
    · next row_sample col_sample hlr hlc =>
      split at hres
      · injection hres with hres'
        injection hres' with hrs hcs
        subst hrs
        subst hcs
        have hmaski : (maskedIdx valid_index index_array)[i]? =
            some (if e = nvpOf valid_index then 0 else e) := by
          rw [maskedIdx, List.getElem?_map, hie]
          rfl
        obtain ⟨hrlen, hrget⟩ := lookupAll_getElem? _ _ _ hlr
        obtain ⟨hclen, hcget⟩ := lookupAll_getElem? _ _ _ hlc
        obtain ⟨v, hv, hrow⟩ := hrget i _ hmaski
        obtain ⟨w, hw, hcol⟩ := hcget i _ hmaski
        constructor
        · intro hsent
          constructor
          · rw [List.getElem?_zipWith, hie, hrow]
            simp [hsent]
          · rw [List.getElem?_zipWith, hie, hcol]
            simp [hsent]
        · intro hsent
          rw [if_neg hsent] at hv hw
          constructor
          · rw [List.getElem?_zipWith, hie, hrow, hv]
            simp [hsent]
          · rw [List.getElem?_zipWith, hie, hcol, hw]
            simp [hsent]
      · cases hres
    · cases hres
  · cases hres

/-- C3, witness: a concrete grid in which position 1 carries the sentinel
(2 valid source pixels) and gets `(-1, -1)`, while the non-sentinel clause
is vacuous there. -/
theorem nearest_neighbour_sentinel_witness :
    ((2 : Nat) = nvpOf [true, false, true, false] →
      ([0, -1, 1, -1] : List Int)[1]? = some (-1) ∧
      ([0, -1, 0, -1] : List Int)[1]? = some (-1)) ∧
    ((2 : Nat) ≠ nvpOf [true, false, true, false] →
      ([0, -1, 1, -1] : List Int)[1]? = (rowsValidOf (2, 2) [true, false, true, false])[2]? ∧
      ([0, -1, 0, -1] : List Int)[1]? = (colsValidOf (2, 2) [true, false, true, false])[2]?) :=
  nearest_neighbour_sentinel (2, 2) (2, 2) [true, false, true, false] [0, 2, 1, 2]
    [0, -1, 1, -1] [0, -1, 0, -1] 1 2 rfl rfl

/-- C4: each quick-linesample output entry is the truncation toward zero of
the affine pixel formula; truncation, not rounding (`2999/1000` truncates
to 2, rounds to 3) and not mathematical floor (`-5/2` truncates to -2,
floors to -3); with `pixel_size_x = 1000` and `pixel_offset_x = 0`, planar
x `2500` and `2999` both map to column 2. -/
theorem quick_linesample_truncates :
    (∀ (src : AreaDefinitionGeom) (source_x source_y : List ℚ) (i : Nat),
      (generate_quick_linesample_arrays src source_x source_y).2[i]? =
        (source_x[i]?).map (fun x => truncQ (x / src.pixel_size_x + src.pixel_offset_x)) ∧
      (generate_quick_linesample_arrays src source_x source_y).1[i]? =
        (source_y[i]?).map (fun y => truncQ (src.pixel_offset_y - y / src.pixel_size_y))) ∧
    (generate_quick_linesample_arrays ⟨1000, 1000, 0, 0⟩ [2500, 2999] []).2 = [2, 2] ∧
    truncQ ((2999 : ℚ) / 1000) ≠ round ((2999 : ℚ) / 1000) ∧
    truncQ (-(5 : ℚ) / 2) ≠ ⌊-(5 : ℚ) / 2⌋ := by
  refine ⟨fun src sx sy i => ⟨?_, ?_⟩, ?_, ?_, ?_⟩
  · simp [generate_quick_linesample_arrays, List.getElem?_map]
  · simp [generate_quick_linesample_arrays, List.getElem?_map]
  · have e1 : truncQ ((2500 : ℚ) / 1000 + 0) = 2 := by
      rw [truncQ, if_pos (by norm_num)]
      norm_num
    have e2 : truncQ ((2999 : ℚ) / 1000 + 0) = 2 := by
      rw [truncQ, if_pos (by norm_num)]
      norm_num
    simp only [generate_quick_linesample_arrays, List.map_cons, List.map_nil]
    rw [e1, e2]
  · rw [truncQ, if_pos (by norm_num)]
    norm_num [round_eq]
  · rw [truncQ, if_neg (by norm_num)]
    norm_num

/-- The example `PCS_DEF` string `+proj=stere +lat_0=90 +lon_0=0`. -/
def pcsDefExample : Str :=
  ['+', 'p', 'r', 'o', 'j', '=', 's', 't', 'e', 'r', 'e', ' ',
   '+', 'l', 'a', 't', '_', '0', '=', '9', '0', ' ',
   '+', 'l', 'o', 'n', '_', '0', '=', '0']

/-- The single proj4 token `+lon_0=+9`, whose value itself starts with `+`. -/
def plusNineTok : Str := ['+', 'l', 'o', 'n', '_', '0', '=', '+', '9']

/-- Key `proj`. -/
def projK : Str := ['p', 'r', 'o', 'j']

/-- Key `lat_0`. -/
def lat0K : Str := ['l', 'a', 't', '_', '0']

/-- Key `lon_0`. -/
def lon0K : Str := ['l', 'o', 'n', '_', '0']

/-- C7: counterexample.  `_get_proj4_args` on a string removes every `+`
character before splitting — `+lon_0=+9` yields value `9` — whereas
stripping only the leading `+` of each token (the claim's reading) would
yield value `+9`. -/
theorem get_proj4_args_strips_all_plus_cex :
    get_proj4_args_ofString plusNineTok = .ok [(lon0K, ['9'])] ∧
    normalizeClaimStr plusNineTok = .ok [(lon0K, ['+', '9'])] ∧
    (['9'] : Str) ≠ ['+', '9'] :=
  ⟨rfl, rfl, by decide⟩

/-- C7 (amended): `_get_proj4_args` splits each token on its first `=`,
collects the pairs into an insertion-ordered mapping where a later
duplicate key overwrites the earlier value, fails with a format error on a
token with no `=`, and — for string input — removes every `+` character
(not only leading ones) before tokenizing; the example
`+proj=stere +lat_0=90 +lon_0=0` maps to
`{proj: stere, lat_0: 90, lon_0: 0}`. -/
theorem get_proj4_args_normalizes :
    (get_proj4_args_ofString pcsDefExample =
      .ok [(projK, ['s', 't', 'e', 'r', 'e']), (lat0K, ['9', '0']), (lon0K, ['0'])]) ∧
    (∀ (toks : List Str) (t : Str), t ∈ toks → (∀ c ∈ t, c ≠ '=') →
      ∃ bad, get_proj4_args_ofList toks = .error bad) ∧
    (∀ (pre : List Str) (k v : Str) (m : List (Str × Str)), (∀ c ∈ k, c ≠ '=') →
      get_proj4_args_ofList (pre ++ [k ++ '=' :: v]) = .ok m →
      lookupKV k m = some v) ∧
    (get_proj4_args_ofString plusNineTok = .ok [(lon0K, ['9'])]) := by
  refine ⟨rfl, ?_, ?_, rfl⟩
  · intro toks t ht hno
    exact configObjParseAux_error_of_no_eq toks t [] ht (splitFirstEq_none t hno)
  · intro pre k v m hno hok
    unfold get_proj4_args_ofList configObjParse at hok
    rw [configObjParseAux_append [] pre [k ++ '=' :: v]] at hok
    cases hpre : configObjParseAux [] pre with
    | error e => rw [hpre] at hok; cases hok
    | ok m' =>
      rw [hpre] at hok
      have hok2 : configObjParseAux m' [k ++ '=' :: v] = .ok m := hok
      rw [configObjParseAux_cons_some m' (k ++ '=' :: v) k v []
          (splitFirstEq_append_eq k v hno)] at hok2
      have hok3 : (Except.ok (insertKV m' k v) : Except Str (List (Str × Str))) = .ok m := hok2
      injection hok3 with hok4
      rw [← hok4]
      exact lookupKV_insertKV_self m' k v

/-- C7 (amended), witness: a token without `=` makes the list form fail. -/
theorem get_proj4_args_normalizes_witness :
    ∃ bad, get_proj4_args_ofList [['a', 'b']] = .error bad :=
  get_proj4_args_normalizes.2.1 [['a', 'b']] ['a', 'b'] (by simp) (by decide)

/-- C10: `area_dict_to_area_def` passes the dict's `PCS_ID` value as both
the area id and the projection id of the constructed record, and the
result depends only on the six keys `PCS_ID`, `NAME`, `PCS_DEF`, `XSIZE`,
`YSIZE`, `AREA_EXTENT` — no separate region/id key is read. -/
theorem area_dict_pcs_id_as_both_ids (V : Type) :
    (∀ (d : List (Str × V)) (r : AreaDefinitionRec V),
        area_dict_to_area_def d = some r →
        r.area_id = r.proj_id ∧ lookupKV pcsIdK d = some r.area_id) ∧
    (∀ (d d' : List (Str × V)),
        (∀ k, k ∈ areaDictKeys → lookupKV k d = lookupKV k d') →
        area_dict_to_area_def d = area_dict_to_area_def d') := by
  constructor
  · intro d r h
    unfold area_dict_to_area_def at h
    split at h
    · next pcs nm pd xs ys ex hpcs hnm hpd hxs hys hex =>
      injection h with h'
      subst h'
      exact ⟨rfl, hpcs⟩
    · cases h
  · intro d d' hk
    unfold area_dict_to_area_def
    rw [hk pcsIdK (by simp [areaDictKeys]), hk nameK (by simp [areaDictKeys]),
        hk pcsDefK (by simp [areaDictKeys]), hk xsizeK (by simp [areaDictKeys]),
        hk ysizeK (by simp [areaDictKeys]), hk extentK (by simp [areaDictKeys])]

/-- C10, witness: a concrete six-key dict produces a record whose area id
and projection id are both the `PCS_ID` value. -/
theorem area_dict_pcs_id_as_both_ids_witness :
    ((⟨0, 1, 0, 2, 3, 4, 5⟩ : AreaDefinitionRec Nat).area_id =
      (⟨0, 1, 0, 2, 3, 4, 5⟩ : AreaDefinitionRec Nat).proj_id) ∧
    lookupKV pcsIdK
        [(pcsIdK, 0), (nameK, 1), (pcsDefK, 2), (xsizeK, 3), (ysizeK, 4), (extentK, 5)] =
      some (⟨0, 1, 0, 2, 3, 4, 5⟩ : AreaDefinitionRec Nat).area_id :=
  (area_dict_pcs_id_as_both_ids Nat).1
    [(pcsIdK, 0), (nameK, 1), (pcsDefK, 2), (xsizeK, 3), (ysizeK, 4), (extentK, 5)]
    ⟨0, 1, 0, 2, 3, 4, 5⟩ rfl
